import Mathlib

/-!
Verification of the SAIGBOX email assistant against its natural-language
specification.  The definitions below are a shallow embedding of the Python
source under `src/`:

* `core/urgency_detector.py`  — urgency scoring, sender importance, learning
  from corrections;
* `core/saig_assistant.py`    — the single trash pathway `_delete_email`
  (confirmation detection, pending-action execution) and the candidate
  resolver `_find_emails_by_description`;
* `core/database.py`          — the `Email` and `UrgencyPattern` rows.

Machine strings are Lean `String`s; Python `str.__contains__` is substring
containment on the character lists; datetimes are modelled as integer
timestamps (seconds), with `timedelta.days` as floor division by 86400.
-/

namespace Saigbox

/-- Consume `lit` from the front of `cs`; `some rest` on success. -/
def dropLit : List Char → List Char → Option (List Char)
  | [], cs => some cs
  | _ :: _, [] => none
  | l :: ls, c :: cs => if l == c then dropLit ls cs else none

/-- Does `needle` occur as a contiguous run inside `hay`? -/
def listContains (needle : List Char) : List Char → Bool
  | [] => (dropLit needle []).isSome
  | c :: rest => (dropLit needle (c :: rest)).isSome || listContains needle rest

/-- Python `needle in hay` on strings: substring containment.  All string
computation in this file is done on character lists by structural recursion,
so every predicate evaluates by `decide`. -/
def strContains (hay needle : String) : Bool :=
  listContains needle.toList hay.toList

/-- Python `str.lower()` for the ASCII text handled by the source. -/
def lowerL (cs : List Char) : List Char := cs.map Char.toLower

/-- Python `str.strip()`: whitespace removed from both ends. -/
def trimL (cs : List Char) : List Char :=
  ((cs.dropWhile Char.isWhitespace).reverse.dropWhile Char.isWhitespace).reverse

/-- Split on a separator predicate, keeping empty pieces (Python
`str.split(sep)` for a one-character separator). -/
def splitBySep (isSep : Char → Bool) : List Char → List (List Char)
  | [] => [[]]
  | c :: rest =>
    let r := splitBySep isSep rest
    if isSep c then [] :: r
    else
      match r with
      | [] => [[c]]
      | piece :: more => (c :: piece) :: more

/-- Number of positions of `hay` at which `needle` starts.  For a needle that
cannot overlap itself (such as `"re:"`) this equals Python's non-overlapping
`str.count`. -/
def countOccur (needle : List Char) : List Char → Nat
  | [] => 0
  | c :: rest =>
    (if (dropLit needle (c :: rest)).isSome then 1 else 0) + countOccur needle rest

/-- Python `str.isupper` restricted to ASCII text: at least one letter, and
every letter is upper case. -/
def pyIsUpper (w : List Char) : Bool :=
  w.any Char.isAlpha && w.all (fun ch => !ch.isAlpha || ch.isUpper)

/-! ## Data model (`core/database.py`) -/

/-- A row of the `emails` table.  `gmail_id` is `Option` because the column is
nullable; an absent or empty value is falsy in the Python code.  `deleted_at`
holds the trash timestamp, `none` while the email is live. -/
structure EmailRec where
  id : String
  user_id : String
  gmail_id : Option String
  subject : String
  sender : String
  sender_name : String
  body_text : String
  snippet : String
  is_read : Bool
  has_attachments : Bool
  received_at : Int
  deleted_at : Option Int
  labels : List String
  deriving Repr, DecidableEq

/-- A persisted row of the `urgency_patterns` table, as returned by a query:
the column defaults (`0`, `False`) have been applied at INSERT time, so the
counters are plain integers. -/
structure UrgencyPatternRow where
  user_id : String
  pattern_type : String
  pattern_value : String
  times_marked_urgent : Int
  times_marked_not_urgent : Int
  is_vip : Bool
  is_ignored : Bool
  deriving Repr, DecidableEq

/-! ## Urgency detector (`core/urgency_detector.py`) -/

def HIGH_PRIORITY_KEYWORDS : List String :=
  ["urgent", "asap", "critical", "emergency", "immediate",
   "crisis", "escalation", "blocker", "showstopper"]

def TIME_SENSITIVE_KEYWORDS : List String :=
  ["today", "tomorrow", "eod", "cob", "deadline", "due date",
   "by end of", "within", "expires", "expiring", "overdue"]

def ACTION_KEYWORDS : List String :=
  ["please review", "need approval", "waiting for", "action required",
   "please confirm", "please respond", "need your", "require your",
   "can you", "could you", "would you", "will you"]

def FOLLOWUP_KEYWORDS : List String :=
  ["follow up", "following up", "reminder", "second request",
   "haven\x27t heard", "checking in", "any update", "status update"]

def IMPORTANT_TITLES : List String :=
  ["ceo", "cto", "cfo", "coo", "president", "vice president", "vp",
   "director", "manager", "supervisor", "head of", "chief", "executive"]

def importantDomains : List String :=
  ["legal", "compliance", "finance", "hr", "security"]

/-- First loop of `check_sender_importance`: the first pattern that matches as
VIP returns `50`, the first that matches as ignored returns `-100`; the VIP
test of each pattern is evaluated before its ignored test. -/
def vipIgnoredLoop (senderLower : List Char) : List UrgencyPatternRow → Option Int
  | [] => none
  | p :: rest =>
    if p.is_vip && (p.pattern_type == "sender")
        && listContains (lowerL p.pattern_value.toList) senderLower then some 50
    else if p.is_ignored && (p.pattern_type == "sender")
        && listContains (lowerL p.pattern_value.toList) senderLower then some (-100)
    else vipIgnoredLoop senderLower rest

/-- Historical-pattern loop of `check_sender_importance`: first matching sender
pattern whose urgent count exceeds twice the not-urgent count yields `35`. -/
def histLoop (senderLower : List Char) : List UrgencyPatternRow → Option Int
  | [] => none
  | p :: rest =>
    if (p.pattern_type == "sender")
        && listContains (lowerL p.pattern_value.toList) senderLower
        && p.times_marked_urgent > p.times_marked_not_urgent * 2 then some 35
    else histLoop senderLower rest

/-- `UrgencyDetector.check_sender_importance`, score component only (the
reason string does not affect classification).  The detector instance always
has a database session wherever this is reached from `should_mark_urgent`;
with no session the pattern list is empty and the loops are no-ops, so the
session flag is not modelled separately. -/
def checkSenderImportance (senderEmail senderName : String)
    (pats : List UrgencyPatternRow) : Int :=
  if senderEmail == "" then 0
  else
    let sl := lowerL senderEmail.toList
    let snl := lowerL senderName.toList
    match vipIgnoredLoop sl pats with
    | some v => v
    | none =>
      if IMPORTANT_TITLES.any
          (fun t => listContains t.toList snl || listContains t.toList sl) then 40
      else if importantDomains.any (fun d => listContains d.toList sl) then 30
      else
        match histLoop sl pats with
        | some v => v
        | none => 0

/-- `f"{email.subject or ''} {email.body_text or email.snippet or ''}".lower()`:
the text analysed by the keyword sections.  An absent field is the empty
string. -/
def contentOf (e : EmailRec) : List Char :=
  lowerL (e.subject ++ " " ++
      (if e.body_text == "" then e.snippet else e.body_text)).toList

/-- Section 1: one high-priority keyword is worth 30 (counted once). -/
def scoreHigh (content : List Char) : Int :=
  if HIGH_PRIORITY_KEYWORDS.any (fun k => listContains k.toList content) then 30 else 0

/-- Section 2: one time-sensitive keyword is worth 20 (counted once). -/
def scoreTime (content : List Char) : Int :=
  if TIME_SENSITIVE_KEYWORDS.any (fun k => listContains k.toList content) then 20 else 0

/-- Section 3: 15 per matching action keyword, at most two counted. -/
def scoreAction (content : List Char) : Int :=
  15 * (min (ACTION_KEYWORDS.countP (fun k => listContains k.toList content)) 2 : Nat)

/-- Section 4: one follow-up keyword is worth 15 (counted once). -/
def scoreFollowup (content : List Char) : Int :=
  if FOLLOWUP_KEYWORDS.any (fun k => listContains k.toList content) then 15 else 0

/-- Section 5: the sender score is added only when it is positive — the
`-100` of an ignored sender is discarded by the `if sender_score > 0:` guard
(source lines 97-99), despite the comment next to the `-100` saying the
negative score prevents urgency. -/
def scoreSender (e : EmailRec) (pats : List UrgencyPatternRow) : Int :=
  if checkSenderImportance e.sender e.sender_name pats > 0 then
    checkSenderImportance e.sender e.sender_name pats
  else 0

/-- Section 6a: an all-caps word of length above 2 in the subject. -/
def scoreCaps (e : EmailRec) : Int :=
  if (!(e.subject == "")) &&
      (splitBySep Char.isWhitespace e.subject.toList).any
        (fun w => pyIsUpper w && w.length > 2)
  then 10 else 0

/-- Section 6b: a double exclamation mark in the subject. -/
def scoreBang (e : EmailRec) : Int :=
  if strContains e.subject "!!" then 10 else 0

/-- Section 6c: a `[urgent]`-style tag in the lowercased subject. -/
def scoreTag (subjLower : List Char) : Int :=
  if ["[urgent]", "[important]", "[action]", "[priority]"].any
      (fun t => listContains t.toList subjLower) then 20 else 0

/-- Section 7: some extracted deadline within 48 hours of `now`; Python
`timedelta.days` floors, hence `Int.fdiv`. -/
def scoreDeadline (deadlines : List Int) (now : Int) : Int :=
  if deadlines.any (fun d => Int.fdiv (d - now) 86400 ≤ 2) then 25 else 0

/-- Section 8: a `re:` thread with at least two `re:` occurrences. -/
def scoreReplies (subjLower : List Char) : Int :=
  if (dropLit "re:".toList subjLower).isSome &&
      decide (2 ≤ countOccur "re:".toList subjLower) then 15 else 0

/-- `UrgencyDetector.calculate_urgency_score`, score component: the sum of
the section contributions, capped at 100.  `deadlines` stands for the output
of `extract_deadlines(content)` (its regex and calendar parsing are not
embedded; every theorem below quantifies over all possible outputs), and
`now` for `datetime.now()` at evaluation time. -/
def calculateUrgencyScore (e : EmailRec) (pats : List UrgencyPatternRow)
    (deadlines : List Int) (now : Int) : Int :=
  let content := contentOf e
  let subjLower := lowerL e.subject.toList
  min (scoreHigh content + scoreTime content + scoreAction content
    + scoreFollowup content + scoreSender e pats + scoreCaps e + scoreBang e
    + scoreTag subjLower + scoreDeadline deadlines now + scoreReplies subjLower) 100

/-- `int(os.getenv('URGENCY_THRESHOLD', '40'))` with the variable unset. -/
def urgencyThreshold : Int := 40

/-- `UrgencyDetector.should_mark_urgent`: urgent iff the score reaches the
threshold.  The pattern list is the result of the per-user query. -/
def shouldMarkUrgent (e : EmailRec) (pats : List UrgencyPatternRow)
    (deadlines : List Int) (now : Int) : Bool :=
  decide (urgencyThreshold ≤ calculateUrgencyScore e pats deadlines now)

/-! ## Learning from corrections (`learn_from_correction`) -/

/-- `email.sender.split('@')[1] if '@' in email.sender else email.sender`. -/
def senderDomain (sender : String) : String :=
  if strContains sender "@" then
    String.mk ((splitBySep (fun c => c == '@') sender.toList).getD 1 [])
  else sender

/-- Python `x += 1` where `x` may be `None`: SQLAlchemy column defaults are
applied at INSERT flush, not at object construction, so a counter of a freshly
constructed `UrgencyPattern` reads as `None` and the increment raises. -/
def pyPlusOne : Option Int → Except String Int
  | some n => Except.ok (n + 1)
  | none => Except.error "TypeError: unsupported operand types for plus-equals: NoneType and int"

/-- Replace the first element satisfying `p` by its image under `f`. -/
def updateFirstWith {α : Type} (p : α → Bool) (f : α → α) : List α → List α
  | [] => []
  | e :: rest => if p e then f e :: rest else e :: updateFirstWith p f rest

/-- `UrgencyDetector.learn_from_correction`.  The session is the list of
persisted pattern rows.  When a row for `(user, domain)` exists, the matching
counter is incremented in place.  When none exists, the code constructs a
fresh ORM object and immediately increments one of its counters; because the
column default `0` is only applied at flush, that attribute is still `None`
and the increment raises `TypeError` before anything is committed. -/
def learnFromCorrection (db : List UrgencyPatternRow) (uid sender : String)
    (correctedToUrgent : Bool) : Except String (List UrgencyPatternRow) :=
  let domain := senderDomain sender
  let isRow : UrgencyPatternRow → Bool := fun p =>
    p.user_id == uid && p.pattern_type == "sender" && p.pattern_value == domain
  match db.find? isRow with
  | some _ =>
      Except.ok (updateFirstWith isRow
        (fun p =>
          if correctedToUrgent then
            { p with times_marked_urgent := p.times_marked_urgent + 1 }
          else
            { p with times_marked_not_urgent := p.times_marked_not_urgent + 1 }) db)
  | none =>
      let freshCounter : Option Int := none
      match pyPlusOne freshCounter with
      | Except.error msg => Except.error msg
      | Except.ok v =>
          Except.ok (db ++
            [⟨uid, "sender", domain,
              if correctedToUrgent then v else 0,
              if correctedToUrgent then 0 else v,
              false, false⟩])

/-! ## The single trash pathway (`SAIGAssistant._delete_email`)

A pending bulk-trash proposal is stored in the conversation context as
`{'emails': [...], 'timestamp': datetime.utcnow().isoformat()}`.  A later
message with that context either confirms (executing the stored candidates
one by one) or cancels (clearing the context untouched). -/

/-- One entry of `pending_delete['emails']`, as built by
`_find_emails_by_description`: the display dict kept for the confirmation
preview.  Only `id` (and, for a logged warning, `subject`) is consulted at
execution time. -/
structure Candidate where
  id : String
  subject : String
  sender : String
  deriving Repr, DecidableEq

/-- `context['pending_delete']`: the candidate list captured at proposal time
plus the creation timestamp. -/
structure PendingDelete where
  emails : List Candidate
  timestamp : Int
  deriving Repr, DecidableEq

/-- The confirmation phrase list of `_delete_email` (source lines 674-679),
verbatim. -/
def confirmationPhrases : List String :=
  ["yes", "confirm", "proceed", "go ahead", "sure", "ok",
   "move to trash", "move all to trash", "yes, move", "yes move",
   "move them", "delete", "trash them", "yes, move all", "yes move all to trash",
   "move selected to trash", "selected email", "selected emails to trash"]

/-- The confirmation keyword list of `process_message` (source line 56). -/
def pmConfirmationKeywords : List String :=
  ["yes", "confirm", "proceed", "go ahead", "sure", "ok", "move", "trash", "delete"]

/-- The cancellation keyword list of `process_message` (source line 57). -/
def pmCancellationKeywords : List String :=
  ["no", "cancel", "stop", "wait", "never", "don\x27t", "abort"]

/-- Does `message.lower().strip()` contain one of `process_message`'s
cancellation keywords? -/
def containsCancellationKeyword (message : String) : Bool :=
  pmCancellationKeywords.any
    (fun k => listContains k.toList (trimL (lowerL message.toList)))

/-- Does `message.lower().strip()` contain one of `process_message`'s
confirmation keywords? -/
def containsConfirmationKeyword (message : String) : Bool :=
  pmConfirmationKeywords.any
    (fun k => listContains k.toList (trimL (lowerL message.toList)))

/-- `message.lower().strip().replace(',', '').replace('.', '')`.  Replacing a
one-character needle by the empty string is removal of that character. -/
def normalizeMsg (message : String) : List Char :=
  ((trimL (lowerL message.toList)).filter (fun c => !(c == ','))).filter
    (fun c => !(c == '.'))

/-- Leading digit run of `cs`: its length and the remainder. -/
def spanDigits : List Char → Nat × List Char
  | [] => (0, [])
  | c :: rest =>
    if c.isDigit then
      let r := spanDigits rest
      (r.1 + 1, r.2)
    else (0, c :: rest)

/-- Match of the regex `move \d+ selected email[s]? to trash` anchored at the
head of `cs` (the optional `s` is tried both consumed and not). -/
def selectedPatternAt (cs : List Char) : Bool :=
  match dropLit "move ".toList cs with
  | none => false
  | some cs1 =>
    let d := spanDigits cs1
    if d.1 == 0 then false
    else
      match dropLit " selected email".toList d.2 with
      | none => false
      | some cs3 =>
        (match cs3 with
         | 's' :: cs4 => (dropLit " to trash".toList cs4).isSome
         | _ => false)
        || (dropLit " to trash".toList cs3).isSome

/-- `re.search` of the selected-emails regex: a match anywhere in the text. -/
def selectedPatternSearch : List Char → Bool
  | [] => false
  | c :: rest => selectedPatternAt (c :: rest) || selectedPatternSearch rest

/-- The confirmation test of `_delete_email` (source lines 687-697): any
confirmation phrase as a substring of the normalized message, else the
selected-emails regex, else exact membership in the phrase list.  Everything
that fails this test takes the cancellation branch. -/
def isConfirmedMsg (message : String) : Bool :=
  let ml := normalizeMsg message
  confirmationPhrases.any (fun p => listContains p.toList ml)
  || selectedPatternSearch ml
  || confirmationPhrases.any (fun p => ml == p.toList)

/-- Outcome of `gmail_service.move_to_trash` for one candidate: a truthy
return, a falsy return, or a raised exception; `exc dbFail` also records
whether the local fallback update in the `except` handler itself fails. -/
inductive GmailOutcome where
  | ok
  | errFalse
  | exc (dbFail : Bool)
  deriving Repr, DecidableEq

/-- How one candidate of the pending list was handled. -/
inductive StepTag where
  | notFound
  | noGmail
  | trashed (o : GmailOutcome)
  | dbFailed
  deriving Repr, DecidableEq

/-- Tags counted by the `success_count` counter: exactly the candidates whose
local mutation was applied, whatever the provider call returned. -/
def StepTag.isSuccess : StepTag → Bool
  | .trashed _ => true
  | _ => false

/-- The local mutation applied to a found email (source lines 746-758): set
`deleted_at`, append `TRASH` if absent, remove the first `INBOX` label. -/
def trashify (now : Int) (e : EmailRec) : EmailRec :=
  let ls := e.labels
  let ls1 := if ls.contains "TRASH" then ls else ls ++ ["TRASH"]
  let ls2 := if ls1.contains "INBOX" then ls1.erase "INBOX" else ls1
  { e with deleted_at := some now, labels := ls2 }

/-- The per-candidate re-fetch `db.query(Email).filter(Email.id == ...,
Email.user_id == user.id).first()`. -/
def matchesCand (userId : String) (c : Candidate) (e : EmailRec) : Bool :=
  e.id == c.id && e.user_id == userId

/-- Python `if not email.gmail_id`: `None` or the empty string is falsy. -/
def gmailMissing (e : EmailRec) : Bool :=
  match e.gmail_id with
  | none => true
  | some g => g == ""

/-- State of the execution loop: the session's view of the emails table, the
two counters of the source, and one tag per processed candidate. -/
structure ExecState where
  db : List EmailRec
  success : Nat
  failed : Nat
  tags : List StepTag
  deriving Repr, DecidableEq

/-- One iteration of the `for email_data in pending['emails']` loop.  The
oracle gives the provider outcome of the k-th processed candidate.  A falsy
provider return and a provider exception with a working session both still
mutate locally and count as success (source lines 760-783); only a candidate
that does not resolve, has no gmail id, or whose local update fails counts as
failed. -/
def execStep (userId : String) (now : Int) (oracle : Nat → GmailOutcome)
    (st : ExecState) (c : Candidate) : ExecState :=
  let k := st.tags.length
  match st.db.find? (matchesCand userId c) with
  | none =>
      { st with failed := st.failed + 1, tags := st.tags ++ [StepTag.notFound] }
  | some e =>
    if gmailMissing e then
      { st with failed := st.failed + 1, tags := st.tags ++ [StepTag.noGmail] }
    else
      match oracle k with
      | .exc true =>
          { st with failed := st.failed + 1, tags := st.tags ++ [StepTag.dbFailed] }
      | o =>
          { db := updateFirstWith (matchesCand userId c) (trashify now) st.db,
            success := st.success + 1, failed := st.failed,
            tags := st.tags ++ [StepTag.trashed o] }

/-- The whole execution loop over the stored candidate list. -/
def execTrash (userId : String) (now : Int) (oracle : Nat → GmailOutcome)
    (db : List EmailRec) (cands : List Candidate) : ExecState :=
  cands.foldl (execStep userId now oracle) ⟨db, 0, 0, []⟩

/-- Outcome of one `_delete_email` call that arrives with a pending delete in
the context. -/
structure RespondResult where
  db : List EmailRec
  success : Nat
  failed : Nat
  tags : List StepTag
  pendingCleared : Bool
  deriving Repr, DecidableEq

/-- `_delete_email` on a message that arrives with `context['pending_delete']`
set (source lines 665-877).  A confirmed message executes the stored
candidates (with an early error return, pending kept, when the stored list is
empty); anything else is the cancellation branch, which clears the pending
state and touches no email.  The stored `timestamp` is never read. -/
def deleteEmailRespond (message : String) (pending : PendingDelete)
    (userId : String) (db : List EmailRec) (now : Int)
    (oracle : Nat → GmailOutcome) : RespondResult :=
  if isConfirmedMsg message then
    if pending.emails.isEmpty then
      ⟨db, 0, 0, [], false⟩
    else
      let st := execTrash userId now oracle db pending.emails
      ⟨st.db, st.success, st.failed, st.tags, true⟩
  else
    ⟨db, 0, 0, [], true⟩

/-! ## The candidate resolver (`_find_emails_by_description`, query part)

The extracted criteria dict is applied to the user's live emails.  A `none`
field models an absent or falsy entry of the dict.  Timestamps are seconds;
`replace(hour=0, minute=0, second=0)` is the floor to the day boundary. -/

/-- The criteria dict returned by the extraction step.  The source passes the
parsed model output through unchanged (with a sender-only fallback when the
call fails), so any combination of fields can reach the query builder. -/
structure Criteria where
  sender : Option String
  subject : Option String
  content : Option String
  read_status : Option String
  has_attachments : Bool
  time_period : Option String
  count : Option Nat
  deriving Repr, DecidableEq

/-- SQL `ILIKE '%pat%'`: case-insensitive containment. -/
def ilike (field pat : String) : Bool :=
  listContains (lowerL pat.toList) (lowerL field.toList)

/-- Value of the leading digit run, most significant digit first. -/
def digitsToNat : List Char → Nat → Nat
  | [], acc => acc
  | c :: rest, acc =>
    if c.isDigit then digitsToNat rest (acc * 10 + (c.toNat - 48)) else acc

/-- First run of digits in a string, as a number (`re.search(r'\d+', ...)`). -/
def firstNat : List Char → Option Nat
  | [] => none
  | c :: rest =>
    if c.isDigit then some (digitsToNat (c :: rest) 0)
    else firstNat rest

/-- Midnight of the day containing `t` (seconds). -/
def startOfDay (t : Int) : Int := (Int.fdiv t 86400) * 86400

/-- The `time_period` filter chain (source lines 592-615). -/
def timePeriodOk (tp : Option String) (now recv : Int) : Bool :=
  match tp with
  | none => true
  | some tp0 =>
    let t := String.mk (lowerL tp0.toList)
    if strContains t "today" then startOfDay now ≤ recv
    else if strContains t "yesterday" then
      decide (startOfDay now - 86400 ≤ recv) && decide (recv < startOfDay now)
    else if strContains t "last_week" || strContains t "last week" then
      decide (now - 7 * 86400 ≤ recv)
    else if strContains t "last_month" || strContains t "last month" then
      decide (now - 30 * 86400 ≤ recv)
    else if strContains t "older_than" then
      match firstNat t.toList with
      | some d => decide (recv < now - (d : Int) * 86400)
      | none => true
    else true

/-- Does `e` satisfy the built query?  The base filter restricts to the
user's own non-deleted emails; each present criteria field adds a filter.
Note that the subject and content filters are applied whenever those fields
are present, including together with a sender filter. -/
def emailMatches (uid : String) (c : Criteria) (now : Int) (e : EmailRec) : Bool :=
  (e.user_id == uid)
  && e.deleted_at.isNone
  && (match c.sender with
      | none => true
      | some s => ilike e.sender s || ilike e.sender_name s)
  && (match c.subject with
      | none => true
      | some s => ilike e.subject s)
  && (match c.content with
      | none => true
      | some s => ilike e.body_text s || ilike e.snippet s)
  && (match c.read_status with
      | some rs => if rs == "read" then e.is_read
                   else if rs == "unread" then !e.is_read
                   else true
      | none => true)
  && (!c.has_attachments || e.has_attachments)
  && timePeriodOk c.time_period now e.received_at

/-- Insert into a list already sorted by `received_at` descending. -/
def insertRecvDesc (e : EmailRec) : List EmailRec → List EmailRec
  | [] => [e]
  | a :: rest =>
    if e.received_at ≤ a.received_at then a :: insertRecvDesc e rest
    else e :: a :: rest

/-- `ORDER BY received_at DESC` (any stable realization of it). -/
def sortRecvDesc : List EmailRec → List EmailRec
  | [] => []
  | e :: rest => insertRecvDesc e (sortRecvDesc rest)

/-- The query pipeline of `_find_emails_by_description` (source lines
551-624): filter, order by received time descending, then `LIMIT count` when
a count was extracted and otherwise the hard safety `LIMIT 50`. -/
def findEmailsByCriteria (uid : String) (c : Criteria) (now : Int)
    (db : List EmailRec) : List EmailRec :=
  let sorted := sortRecvDesc (db.filter (emailMatches uid c now))
  match c.count with
  | some n => sorted.take n
  | none => sorted.take 50

/-! ## Generic lemmas about the in-place update of the first match -/

theorem updateFirstWith_length {α : Type} (p : α → Bool) (f : α → α) (l : List α) :
    (updateFirstWith p f l).length = l.length := by
  induction l with
  | nil => rfl
  | cons a rest ih => cases hpa : p a <;> simp [updateFirstWith, hpa, ih]

theorem updateFirstWith_getElem? {α : Type} (p : α → Bool) (f : α → α)
    (l : List α) (i : Nat) :
    (updateFirstWith p f l)[i]? = l[i]? ∨
      ∃ e, l[i]? = some e ∧ p e = true ∧ (updateFirstWith p f l)[i]? = some (f e) := by
  induction l generalizing i with
  | nil => left; rfl
  | cons a rest ih =>
    cases hpa : p a
    · cases i with
      | zero => left; simp [updateFirstWith, hpa]
      | succ n =>
        rcases ih n with h | ⟨e, h1, h2, h3⟩
        · left; simpa [updateFirstWith, hpa] using h
        · right
          exact ⟨e, by simpa using h1, h2, by simpa [updateFirstWith, hpa] using h3⟩
    · cases i with
      | zero => right; exact ⟨a, by simp, hpa, by simp [updateFirstWith, hpa]⟩
      | succ n => left; simp [updateFirstWith, hpa]

theorem updateFirstWith_frame {α : Type} (p : α → Bool) (f : α → α)
    (l : List α) (i : Nat) (e : α) (he : l[i]? = some e) (hpe : p e = false) :
    (updateFirstWith p f l)[i]? = some e := by
  rcases updateFirstWith_getElem? p f l i with h | ⟨e', h1, h2, _⟩
  · rw [h, he]
  · rw [he] at h1
    cases h1
    rw [hpe] at h2
    cases h2

theorem updateFirstWith_first {α : Type} (p : α → Bool) (f : α → α)
    (l : List α) (i : Nat) (e : α) (he : l[i]? = some e) (hpe : p e = true)
    (hbefore : ∀ j, j < i → ∀ e', l[j]? = some e' → p e' = false) :
    l.find? p = some e ∧ (updateFirstWith p f l)[i]? = some (f e) := by
  induction l generalizing i with
  | nil => simp at he
  | cons a rest ih =>
    cases i with
    | zero =>
      rw [List.getElem?_cons_zero] at he
      cases he
      exact ⟨List.find?_cons_of_pos _ hpe, by simp [updateFirstWith, hpe]⟩
    | succ n =>
      have hpa : p a = false := hbefore 0 (Nat.succ_pos n) a (by simp)
      have hrec := ih n (by simpa using he)
        (fun j hj e' hje => hbefore (j + 1) (Nat.succ_lt_succ hj) e' (by simpa using hje))
      refine ⟨?_, ?_⟩
      · rw [List.find?_cons_of_neg _ (by simp [hpa]), hrec.1]
      · simpa [updateFirstWith, hpa] using hrec.2

theorem updateFirstWith_map {α β : Type} (p : α → Bool) (f : α → α) (g : α → β)
    (hg : ∀ a, g (f a) = g a) (l : List α) :
    (updateFirstWith p f l).map g = l.map g := by
  induction l with
  | nil => rfl
  | cons a rest ih => cases hpa : p a <;> simp [updateFirstWith, hpa, ih, hg]

theorem nodup_map_getElem?_ne {α β : Type} {g : α → β} {l : List α}
    (h : (l.map g).Nodup) {i j : Nat} {a b : α} (hij : i ≠ j)
    (ha : l[i]? = some a) (hb : l[j]? = some b) : g a ≠ g b := by
  intro hgab
  have hi : i < l.length := by
    by_contra hi
    rw [List.getElem?_eq_none (by omega)] at ha
    cases ha
  have hmi : (l.map g)[i]? = some (g a) := by
    rw [List.getElem?_map, ha]; rfl
  have hmj : (l.map g)[j]? = some (g b) := by
    rw [List.getElem?_map, hb]; rfl
  exact hij (List.getElem?_inj (by simpa using hi) h (by rw [hmi, hmj, hgab]))

/-! ## Lemmas about the descending sort of the resolver -/

theorem insertRecvDesc_perm (e : EmailRec) (l : List EmailRec) :
    (insertRecvDesc e l).Perm (e :: l) := by
  induction l with
  | nil => exact List.Perm.refl _
  | cons a rest ih =>
    simp only [insertRecvDesc]
    split
    · exact (ih.cons a).trans (List.Perm.swap e a rest)
    · exact List.Perm.refl _

theorem sortRecvDesc_perm (l : List EmailRec) : (sortRecvDesc l).Perm l := by
  induction l with
  | nil => exact List.Perm.refl _
  | cons a rest ih => exact (insertRecvDesc_perm a (sortRecvDesc rest)).trans (ih.cons a)

theorem insertRecvDesc_sorted (e : EmailRec) (l : List EmailRec)
    (h : l.Pairwise (fun a b => b.received_at ≤ a.received_at)) :
    (insertRecvDesc e l).Pairwise (fun a b => b.received_at ≤ a.received_at) := by
  induction l with
  | nil => simp [insertRecvDesc]
  | cons a rest ih =>
    simp only [insertRecvDesc]
    split
    · rename_i hle
      rw [List.pairwise_cons] at h
      rw [List.pairwise_cons]
      refine ⟨fun x hx => ?_, ih h.2⟩
      rcases List.mem_cons.1 ((insertRecvDesc_perm e rest).mem_iff.1 hx) with hx | hx
      · subst hx
        exact hle
      · exact h.1 x hx
    · rename_i hgt
      rw [List.pairwise_cons] at h
      rw [List.pairwise_cons]
      refine ⟨fun x hx => ?_, List.pairwise_cons.2 h⟩
      rcases List.mem_cons.1 hx with hx | hx
      · subst hx
        omega
      · have := h.1 x hx
        omega

theorem sortRecvDesc_sorted (l : List EmailRec) :
    (sortRecvDesc l).Pairwise (fun a b => b.received_at ≤ a.received_at) := by
  induction l with
  | nil => simp [sortRecvDesc]
  | cons a rest ih => exact insertRecvDesc_sorted a (sortRecvDesc rest) ih

/-! ## Lemmas about the execution loop -/

/-- One field of an email never changed by the trash mutation. -/
theorem trashify_id (now : Int) (e : EmailRec) : (trashify now e).id = e.id := rfl

theorem trashify_user_id (now : Int) (e : EmailRec) :
    (trashify now e).user_id = e.user_id := rfl

theorem trashify_gmail_id (now : Int) (e : EmailRec) :
    (trashify now e).gmail_id = e.gmail_id := rfl

theorem trashify_deleted_at (now : Int) (e : EmailRec) :
    (trashify now e).deleted_at = some now := rfl

/-- Evolution of one database slot during the loop: the identifying fields
are stable, and the slot is either untouched or carries the trash stamp. -/
def evolves (now : Int) (e e' : EmailRec) : Prop :=
  e'.id = e.id ∧ e'.user_id = e.user_id ∧ e'.gmail_id = e.gmail_id ∧
    (e' = e ∨ e'.deleted_at = some now)

theorem evolves_refl (now : Int) (e : EmailRec) : evolves now e e :=
  ⟨rfl, rfl, rfl, Or.inl rfl⟩

theorem evolves_of_step {now : Int} {e e1 e2 : EmailRec} (h : evolves now e e1)
    (hstep : e2 = e1 ∨ e2 = trashify now e1) : evolves now e e2 := by
  rcases hstep with h2 | h2
  · exact h2 ▸ h
  · subst h2
    exact ⟨h.1, h.2.1, h.2.2.1, Or.inr (trashify_deleted_at now e1)⟩

theorem execStep_db_eq (u : String) (now : Int) (oracle : Nat → GmailOutcome)
    (st : ExecState) (c : Candidate) :
    (execStep u now oracle st c).db = st.db ∨
      (execStep u now oracle st c).db
        = updateFirstWith (matchesCand u c) (trashify now) st.db := by
  simp only [execStep]
  rcases hf : st.db.find? (matchesCand u c) with _ | e
  · left; rfl
  · cases hg : gmailMissing e
    · simp only [hg, Bool.false_eq_true, if_false]
      rcases ho : oracle st.tags.length with _ | _ | b
      · right; rfl
      · right; rfl
      · cases b
        · right; rfl
        · left; rfl
    · left; simp [hg]

theorem execStep_tags_snoc (u : String) (now : Int) (oracle : Nat → GmailOutcome)
    (st : ExecState) (c : Candidate) :
    ∃ t, (execStep u now oracle st c).tags = st.tags ++ [t] := by
  simp only [execStep]
  rcases hf : st.db.find? (matchesCand u c) with _ | e
  · exact ⟨_, rfl⟩
  · cases hg : gmailMissing e
    · simp only [hg, Bool.false_eq_true, if_false]
      rcases ho : oracle st.tags.length with _ | _ | b
      · exact ⟨_, rfl⟩
      · exact ⟨_, rfl⟩
      · cases b
        · exact ⟨_, rfl⟩
        · exact ⟨_, rfl⟩
    · refine ⟨StepTag.noGmail, ?_⟩
      simp [hg]

theorem execStep_getElem? (u : String) (now : Int) (oracle : Nat → GmailOutcome)
    (st : ExecState) (c : Candidate) (i : Nat) (e : EmailRec)
    (he : st.db[i]? = some e) :
    ∃ e', (execStep u now oracle st c).db[i]? = some e' ∧
      (e' = e ∨ e' = trashify now e) := by
  rcases execStep_db_eq u now oracle st c with h | h
  · exact ⟨e, by rw [h, he], Or.inl rfl⟩
  · rcases updateFirstWith_getElem? (matchesCand u c) (trashify now) st.db i with
      h2 | ⟨e0, h1, _, h3⟩
    · exact ⟨e, by rw [h, h2, he], Or.inl rfl⟩
    · rw [he] at h1
      cases h1
      exact ⟨trashify now e, by rw [h, h3], Or.inr rfl⟩

theorem execFold_getElem? (u : String) (now : Int) (oracle : Nat → GmailOutcome)
    (cands : List Candidate) (st : ExecState) (i : Nat) (e : EmailRec)
    (he : st.db[i]? = some e) :
    ∃ e', (cands.foldl (execStep u now oracle) st).db[i]? = some e'
      ∧ evolves now e e' := by
  induction cands generalizing st e with
  | nil => exact ⟨e, he, evolves_refl now e⟩
  | cons c rest ih =>
    obtain ⟨e1, he1, h1⟩ := execStep_getElem? u now oracle st c i e he
    obtain ⟨e2, he2, h2⟩ := ih (execStep u now oracle st c) e1 he1
    refine ⟨e2, by simpa using he2, ?_⟩
    have base : evolves now e e1 := evolves_of_step (evolves_refl now e) h1
    exact ⟨h2.1.trans base.1, h2.2.1.trans base.2.1, h2.2.2.1.trans base.2.2.1, by
      rcases h2.2.2.2 with h | h
      · exact h ▸ base.2.2.2
      · exact Or.inr h⟩

theorem execFold_frame (u : String) (now : Int) (oracle : Nat → GmailOutcome)
    (cands : List Candidate) (st : ExecState) (i : Nat) (e : EmailRec)
    (he : st.db[i]? = some e)
    (hno : ∀ c ∈ cands, matchesCand u c e = false) :
    (cands.foldl (execStep u now oracle) st).db[i]? = some e := by
  induction cands generalizing st with
  | nil => exact he
  | cons c rest ih =>
    have hstep : (execStep u now oracle st c).db[i]? = some e := by
      rcases execStep_db_eq u now oracle st c with h | h
      · rw [h]; exact he
      · rw [h]
        exact updateFirstWith_frame _ _ _ _ _ he (hno c (List.mem_cons_self c rest))
    simpa using ih (execStep u now oracle st c) hstep
      (fun c' hc' => hno c' (List.mem_cons_of_mem c hc'))

/-- The identifying key of an email, invariant under the loop. -/
def keyOf (e : EmailRec) : String × String × Option String :=
  (e.id, e.user_id, e.gmail_id)

theorem execStep_map_key (u : String) (now : Int) (oracle : Nat → GmailOutcome)
    (st : ExecState) (c : Candidate) :
    (execStep u now oracle st c).db.map keyOf = st.db.map keyOf := by
  rcases execStep_db_eq u now oracle st c with h | h <;> rw [h]
  exact updateFirstWith_map (matchesCand u c) (trashify now) keyOf (fun a => rfl) st.db

theorem execStep_map_id (u : String) (now : Int) (oracle : Nat → GmailOutcome)
    (st : ExecState) (c : Candidate) :
    (execStep u now oracle st c).db.map EmailRec.id = st.db.map EmailRec.id := by
  rcases execStep_db_eq u now oracle st c with h | h <;> rw [h]
  exact updateFirstWith_map (matchesCand u c) (trashify now) EmailRec.id (fun a => rfl) st.db

theorem execStep_db_length (u : String) (now : Int) (oracle : Nat → GmailOutcome)
    (st : ExecState) (c : Candidate) :
    (execStep u now oracle st c).db.length = st.db.length := by
  rcases execStep_db_eq u now oracle st c with h | h <;> rw [h]
  exact updateFirstWith_length _ _ st.db

theorem execFold_db_length (u : String) (now : Int) (oracle : Nat → GmailOutcome)
    (cands : List Candidate) (st : ExecState) :
    (cands.foldl (execStep u now oracle) st).db.length = st.db.length := by
  induction cands generalizing st with
  | nil => rfl
  | cons c rest ih =>
    rw [List.foldl_cons, ih]
    exact execStep_db_length u now oracle st c

/-- The two counters of the source always agree with the tag list: `success`
counts the candidates whose local mutation was applied, `failed` all others. -/
def countersOk (st : ExecState) : Prop :=
  st.success = st.tags.countP StepTag.isSuccess ∧
    st.failed = st.tags.countP (fun t => !t.isSuccess)

theorem execStep_countersOk (u : String) (now : Int) (oracle : Nat → GmailOutcome)
    (st : ExecState) (c : Candidate) (h : countersOk st) :
    countersOk (execStep u now oracle st c) := by
  obtain ⟨h1, h2⟩ := h
  simp only [execStep]
  rcases hf : st.db.find? (matchesCand u c) with _ | e
  · exact ⟨by simp [List.countP_append, h1, StepTag.isSuccess],
      by simp [List.countP_append, h2, StepTag.isSuccess]⟩
  · cases hg : gmailMissing e
    · simp only [hg, Bool.false_eq_true, if_false]
      rcases ho : oracle st.tags.length with _ | _ | b
      · exact ⟨by simp [List.countP_append, h1, StepTag.isSuccess],
          by simp [List.countP_append, h2, StepTag.isSuccess]⟩
      · exact ⟨by simp [List.countP_append, h1, StepTag.isSuccess],
          by simp [List.countP_append, h2, StepTag.isSuccess]⟩
      · cases b
        · exact ⟨by simp [List.countP_append, h1, StepTag.isSuccess],
            by simp [List.countP_append, h2, StepTag.isSuccess]⟩
        · exact ⟨by simp [List.countP_append, h1, StepTag.isSuccess],
            by simp [List.countP_append, h2, StepTag.isSuccess]⟩
    · simp only [hg, if_true]
      exact ⟨by simp [List.countP_append, h1, StepTag.isSuccess],
        by simp [List.countP_append, h2, StepTag.isSuccess]⟩

theorem execFold_countersOk (u : String) (now : Int) (oracle : Nat → GmailOutcome)
    (cands : List Candidate) (st : ExecState) (h : countersOk st) :
    countersOk (cands.foldl (execStep u now oracle) st) := by
  induction cands generalizing st with
  | nil => exact h
  | cons c rest ih =>
    exact ih (execStep u now oracle st c) (execStep_countersOk u now oracle st c h)

theorem execFold_tags_append (u : String) (now : Int) (oracle : Nat → GmailOutcome)
    (cands : List Candidate) (st : ExecState) :
    ∃ suffix, (cands.foldl (execStep u now oracle) st).tags = st.tags ++ suffix ∧
      suffix.length = cands.length := by
  induction cands generalizing st with
  | nil => exact ⟨[], by simp⟩
  | cons c rest ih =>
    obtain ⟨t, ht⟩ := execStep_tags_snoc u now oracle st c
    obtain ⟨s, hs1, hs2⟩ := ih (execStep u now oracle st c)
    exact ⟨t :: s, by simp [hs1, ht], by simp [hs2]⟩

theorem mem_of_getElem?_some {α : Type} {l : List α} {n : Nat} {a : α}
    (h : l[n]? = some a) : a ∈ l := by
  induction l generalizing n with
  | nil => simp at h
  | cons b rest ih =>
    cases n with
    | zero =>
      rw [List.getElem?_cons_zero] at h
      cases h
      exact List.mem_cons_self _ _
    | succ m => exact List.mem_cons_of_mem b (ih (by simpa using h))

theorem countP_add_countP_not {α : Type} (p : α → Bool) (l : List α) :
    l.countP p + l.countP (fun a => !p a) = l.length := by
  induction l with
  | nil => rfl
  | cons a rest ih =>
    cases hpa : p a <;> simp [List.countP_cons, hpa] <;> omega

/-- A candidate with no matching live row for this user is recorded as
`notFound` (and hence counted as failed). -/
theorem execFold_tag_notFound (u : String) (now : Int) (oracle : Nat → GmailOutcome)
    (cands : List Candidate) (st : ExecState) (k : Nat) (c : Candidate)
    (hk : cands[k]? = some c)
    (hno : ∀ e ∈ st.db, matchesCand u c e = false) :
    (cands.foldl (execStep u now oracle) st).tags[st.tags.length + k]?
      = some StepTag.notFound := by
  induction cands generalizing st k with
  | nil => simp at hk
  | cons c0 rest ih =>
    cases k with
    | zero =>
      rw [List.getElem?_cons_zero] at hk
      cases hk
      have hfind : st.db.find? (matchesCand u c) = none :=
        List.find?_eq_none.2 (fun e he => by simp [hno e he])
      have hstep : execStep u now oracle st c =
          { st with failed := st.failed + 1, tags := st.tags ++ [StepTag.notFound] } := by
        simp [execStep, hfind]
      rw [List.foldl_cons, hstep]
      obtain ⟨s, hs1, _⟩ := execFold_tags_append u now oracle rest
        { st with failed := st.failed + 1, tags := st.tags ++ [StepTag.notFound] }
      rw [hs1]
      simp only [List.append_assoc]
      rw [List.getElem?_append_right (by omega)]
      simp
    | succ n =>
      rw [List.getElem?_cons_succ] at hk
      have hkeys := execStep_map_key u now oracle st c0
      have hno' : ∀ e ∈ (execStep u now oracle st c0).db, matchesCand u c e = false := by
        intro e he
        have : keyOf e ∈ (execStep u now oracle st c0).db.map keyOf :=
          List.mem_map_of_mem keyOf he
        rw [hkeys] at this
        obtain ⟨e0, he0, hkey⟩ := List.mem_map.1 this
        have hid : e0.id = e.id := congrArg Prod.fst hkey
        have huser : e0.user_id = e.user_id :=
          congrArg (fun q => q.2.1) hkey
        have := hno e0 he0
        simp only [matchesCand] at this ⊢
        rw [← hid, ← huser]
        exact this
      obtain ⟨t, ht⟩ := execStep_tags_snoc u now oracle st c0
      have := ih (execStep u now oracle st c0) n hk hno'
      rw [List.foldl_cons]
      rw [ht] at this
      simpa [Nat.add_assoc, Nat.add_comm 1 n] using this

/-- The main positive lemma: a stored candidate that resolves to a live row
of the confirming user (unique ids, gmail id present, no local database
failure) ends up trashed at its original slot. -/
theorem execFold_trashes (u : String) (now : Int) (oracle : Nat → GmailOutcome)
    (cands : List Candidate) (st : ExecState) (i : Nat) (e : EmailRec)
    (c : Candidate)
    (he : st.db[i]? = some e)
    (hnodup : (st.db.map EmailRec.id).Nodup)
    (huser : e.user_id = u)
    (hgmail : gmailMissing e = false)
    (horacle : ∀ k, oracle k ≠ GmailOutcome.exc true)
    (hc : c ∈ cands)
    (hcid : c.id = e.id) :
    ∃ e', (cands.foldl (execStep u now oracle) st).db[i]? = some e' ∧
      e'.deleted_at = some now := by
  induction cands generalizing st e with
  | nil => simp at hc
  | cons c0 rest ih =>
    by_cases hmatch : matchesCand u c0 e = true
    · -- the head candidate resolves to slot i; the slot is trashed now and
      -- keeps its stamp through the remaining iterations
      have hbefore : ∀ j, j < i → ∀ e', st.db[j]? = some e' →
          matchesCand u c0 e' = false := by
        intro j hj e' hje
        by_contra hpe
        have hpe : matchesCand u c0 e' = true := by
          revert hpe
          cases matchesCand u c0 e' <;> simp
        have hid' : e'.id = c0.id := by
          have := hpe
          simp only [matchesCand, Bool.and_eq_true, beq_iff_eq] at this
          exact this.1
        have hid : e.id = c0.id := by
          have := hmatch
          simp only [matchesCand, Bool.and_eq_true, beq_iff_eq] at this
          exact this.1
        exact nodup_map_getElem?_ne hnodup (by omega) hje he (by rw [hid', hid])
      have hfw := updateFirstWith_first (matchesCand u c0) (trashify now)
        st.db i e he hmatch hbefore
      have hstepdb : (execStep u now oracle st c0).db
          = updateFirstWith (matchesCand u c0) (trashify now) st.db := by
        simp only [execStep, hfw.1]
        rw [if_neg (by simp [hgmail])]
        rcases ho : oracle st.tags.length with _ | _ | b
        · rfl
        · rfl
        · cases b
          · rfl
          · exact absurd ho (horacle st.tags.length)
      have hstepi : (execStep u now oracle st c0).db[i]? = some (trashify now e) := by
        rw [hstepdb]; exact hfw.2
      rw [List.foldl_cons]
      obtain ⟨e', he', hev⟩ := execFold_getElem? u now oracle rest
        (execStep u now oracle st c0) i (trashify now e) hstepi
      refine ⟨e', he', ?_⟩
      rcases hev.2.2.2 with h | h
      · rw [h]; exact trashify_deleted_at now e
      · exact h
    · -- the head candidate leaves slot i alone
      have hmatch' : matchesCand u c0 e = false := by
        revert hmatch
        cases matchesCand u c0 e <;> simp
      have hstepi : (execStep u now oracle st c0).db[i]? = some e := by
        rcases execStep_db_eq u now oracle st c0 with h | h
        · rw [h]; exact he
        · rw [h]; exact updateFirstWith_frame _ _ _ _ _ he hmatch'
      have hc' : c ∈ rest := by
        rcases List.mem_cons.1 hc with h | h
        · exfalso
          subst h
          apply hmatch
          simp [matchesCand, hcid, huser]
        · exact h
      have hnodup' : ((execStep u now oracle st c0).db.map EmailRec.id).Nodup := by
        rw [execStep_map_id]; exact hnodup
      rw [List.foldl_cons]
      exact ih (execStep u now oracle st c0) e hstepi hnodup' huser hgmail hc' hcid

theorem execTrash_def (u : String) (now : Int) (oracle : Nat → GmailOutcome)
    (db : List EmailRec) (cands : List Candidate) :
    execTrash u now oracle db cands
      = cands.foldl (execStep u now oracle) ⟨db, 0, 0, []⟩ := rfl

/-! ## The claims -/

/-- Claim C1, as stated, is false on the code: a user response that contains
the source's own cancellation keywords (`no`, `don't`) can still trigger the
mutation, because the confirmation test of `_delete_email` is a substring
check and `"no, don't delete them"` contains the confirmation phrase
`delete`.  The single stored candidate is trashed. -/
theorem c1_cancellation_counterexample :
    containsCancellationKeyword "no, don\x27t delete them" = true
    ∧ isConfirmedMsg "no, don\x27t delete them" = true
    ∧ deleteEmailRespond "no, don\x27t delete them"
        ⟨[⟨"e1", "Hello", "Nike"⟩], 0⟩ "u1"
        [⟨"e1", "u1", some "g1", "Hello", "ads@nike.com", "Nike", "b", "s",
          false, false, 100, none, ["INBOX"]⟩]
        500 (fun _ => GmailOutcome.ok)
      = ⟨[⟨"e1", "u1", some "g1", "Hello", "ads@nike.com", "Nike", "b", "s",
          false, false, 100, some 500, ["TRASH"]⟩], 1, 0,
          [StepTag.trashed GmailOutcome.ok], true⟩ := by
  exact ⟨by decide, by decide, by decide⟩

/-- Claim C1 amended: a response is honored as a cancellation exactly when it
contains no confirmation phrase; in that case no candidate message is
mutated, the counters stay zero and only the pending state is discarded.
(There is no expiry mechanism in the code, so expiry cannot trigger a
mutation either.) -/
theorem c1_cancellation_no_mutation (msg : String) (pending : PendingDelete)
    (u : String) (db : List EmailRec) (now : Int) (oracle : Nat → GmailOutcome)
    (h : isConfirmedMsg msg = false) :
    deleteEmailRespond msg pending u db now oracle = ⟨db, 0, 0, [], true⟩ := by
  simp [deleteEmailRespond, h]

theorem c1_cancellation_no_mutation_witness :
    isConfirmedMsg "cancel" = false
    ∧ deleteEmailRespond "cancel" ⟨[⟨"e1", "Hello", "Nike"⟩], 0⟩ "u1"
        [⟨"e1", "u1", some "g1", "Hello", "ads@nike.com", "Nike", "b", "s",
          false, false, 100, none, ["INBOX"]⟩]
        500 (fun _ => GmailOutcome.ok)
      = ⟨[⟨"e1", "u1", some "g1", "Hello", "ads@nike.com", "Nike", "b", "s",
          false, false, 100, none, ["INBOX"]⟩], 0, 0, [], true⟩ :=
  ⟨by decide, c1_cancellation_no_mutation "cancel" ⟨[⟨"e1", "Hello", "Nike"⟩], 0⟩
    "u1" _ 500 (fun _ => GmailOutcome.ok) (by decide)⟩

/-- Claim C2: a confirmed pending action mutates exactly the candidate set
captured at proposal time.  Whatever the mailbox looks like at confirmation
time, (frame) every slot whose id is not among the stored candidate ids is
returned unchanged, and (coverage) every stored candidate that resolves to a
live row of the confirming user (unique ids, gmail id present, no local
database failure) is trashed — membership is decided by the stored ids alone,
never by re-running the search criteria. -/
theorem c2_confirm_mutates_exact_candidates (msg : String)
    (pending : PendingDelete) (u : String) (db : List EmailRec) (now : Int)
    (oracle : Nat → GmailOutcome) (hconf : isConfirmedMsg msg = true) :
    (∀ (i : Nat) (e : EmailRec), db[i]? = some e →
       (∀ c ∈ pending.emails, e.id ≠ c.id) →
       (deleteEmailRespond msg pending u db now oracle).db[i]? = some e)
    ∧ ((db.map EmailRec.id).Nodup → (∀ k, oracle k ≠ GmailOutcome.exc true) →
       ∀ (i : Nat) (e : EmailRec) (c : Candidate), db[i]? = some e →
         c ∈ pending.emails → c.id = e.id →
         e.user_id = u → gmailMissing e = false →
         ∃ e' : EmailRec,
           (deleteEmailRespond msg pending u db now oracle).db[i]? = some e'
           ∧ e'.deleted_at = some now) := by
  constructor
  · intro i e he hnc
    by_cases hemp : pending.emails.isEmpty
    · simp [deleteEmailRespond, hconf, hemp, he]
    · have hdb : (deleteEmailRespond msg pending u db now oracle).db
          = (execTrash u now oracle db pending.emails).db := by
        simp [deleteEmailRespond, hconf, hemp]
      rw [hdb, execTrash_def]
      refine execFold_frame u now oracle pending.emails ⟨db, 0, 0, []⟩ i e he ?_
      intro c hc
      have : (e.id == c.id) = false := beq_eq_false_iff_ne.2 (hnc c hc)
      simp [matchesCand, this]
  · intro hnodup horacle i e c he hc hcid huser hgmail
    have hemp : pending.emails.isEmpty = false := by
      cases hl : pending.emails with
      | nil => rw [hl] at hc; simp at hc
      | cons a l => simp [hl]
    have hdb : (deleteEmailRespond msg pending u db now oracle).db
        = (execTrash u now oracle db pending.emails).db := by
      simp [deleteEmailRespond, hconf, hemp]
    rw [hdb, execTrash_def]
    exact execFold_trashes u now oracle pending.emails ⟨db, 0, 0, []⟩ i e c he
      hnodup huser hgmail horacle hc hcid

theorem c2_confirm_mutates_exact_candidates_witness :
    ∃ e', (deleteEmailRespond "yes" ⟨[⟨"e1", "Hello", "Nike"⟩], 0⟩ "u1"
        [⟨"e1", "u1", some "g1", "Hello", "ads@nike.com", "Nike", "b", "s",
          false, false, 100, none, ["INBOX"]⟩]
        500 (fun _ => GmailOutcome.ok)).db[0]? = some e'
      ∧ e'.deleted_at = some 500 :=
  (c2_confirm_mutates_exact_candidates "yes" ⟨[⟨"e1", "Hello", "Nike"⟩], 0⟩ "u1"
      [⟨"e1", "u1", some "g1", "Hello", "ads@nike.com", "Nike", "b", "s",
        false, false, 100, none, ["INBOX"]⟩]
      500 (fun _ => GmailOutcome.ok) (by decide)).2
    (by decide) (fun k => by decide) 0
    ⟨"e1", "u1", some "g1", "Hello", "ads@nike.com", "Nike", "b", "s",
      false, false, 100, none, ["INBOX"]⟩
    ⟨"e1", "Hello", "Nike"⟩ (by decide) (by decide) (by decide) (by decide) (by decide)

/-- Claim C3, as stated, is false on the code, and the code contradicts its
own comment (`# Negative score to prevent urgency`): the `-100` of a matching
ignored-sender pattern is returned by `check_sender_importance` but then
discarded by the `if sender_score > 0:` guard of `calculate_urgency_score`,
so an ignored sender with other urgency signals still scores 60 and is
classified urgent. -/
theorem c3_ignored_sender_still_urgent :
    checkSenderImportance "boss@spam.com" ""
      [⟨"u1", "sender", "spam.com", 0, 0, false, true⟩] = -100
    ∧ calculateUrgencyScore
        ⟨"e9", "u1", some "g", "URGENT: deadline today", "boss@spam.com", "",
          "", "", false, false, 0, none, []⟩
        [⟨"u1", "sender", "spam.com", 0, 0, false, true⟩] [] 0 = 60
    ∧ shouldMarkUrgent
        ⟨"e9", "u1", some "g", "URGENT: deadline today", "boss@spam.com", "",
          "", "", false, false, 0, none, []⟩
        [⟨"u1", "sender", "spam.com", 0, 0, false, true⟩] [] 0 = true := by
  exact ⟨by decide, by decide, by decide⟩

/-- Claim C4: with no extracted count, the resolver returns at most 50
candidates, all matching the criteria, in received-time descending order;
when at least 50 emails match it returns exactly 50, and every matching email
left out is no more recent than any returned one. -/
theorem c4_safety_ceiling (uid : String) (c : Criteria) (now : Int)
    (db : List EmailRec) (hcount : c.count = none) :
    (findEmailsByCriteria uid c now db).length ≤ 50
    ∧ (∀ e ∈ findEmailsByCriteria uid c now db, emailMatches uid c now e = true)
    ∧ (findEmailsByCriteria uid c now db).Pairwise
        (fun a b => b.received_at ≤ a.received_at)
    ∧ (50 ≤ (db.filter (emailMatches uid c now)).length →
        (findEmailsByCriteria uid c now db).length = 50)
    ∧ (∀ e ∈ db, emailMatches uid c now e = true →
        e ∉ findEmailsByCriteria uid c now db →
        ∀ x ∈ findEmailsByCriteria uid c now db, e.received_at ≤ x.received_at) := by
  have hr : findEmailsByCriteria uid c now db
      = (sortRecvDesc (db.filter (emailMatches uid c now))).take 50 := by
    simp [findEmailsByCriteria, hcount]
  refine ⟨?_, ?_, ?_, ?_, ?_⟩
  · rw [hr]
    exact List.length_take_le 50 _
  · intro e he
    rw [hr] at he
    have : e ∈ sortRecvDesc (db.filter (emailMatches uid c now)) :=
      List.take_subset 50 _ he
    exact (List.mem_filter.1 ((sortRecvDesc_perm _).mem_iff.1 this)).2
  · rw [hr]
    exact (sortRecvDesc_sorted _).sublist (List.take_sublist 50 _)
  · intro hfifty
    rw [hr, List.length_take]
    have hlen : (sortRecvDesc (db.filter (emailMatches uid c now))).length
        = (db.filter (emailMatches uid c now)).length :=
      (sortRecvDesc_perm _).length_eq
    omega
  · intro e hedb hem hnot x hx
    have hesort : e ∈ sortRecvDesc (db.filter (emailMatches uid c now)) :=
      (sortRecvDesc_perm _).mem_iff.2 (List.mem_filter.2 ⟨hedb, hem⟩)
    have hsplit : sortRecvDesc (db.filter (emailMatches uid c now))
        = (sortRecvDesc (db.filter (emailMatches uid c now))).take 50
          ++ (sortRecvDesc (db.filter (emailMatches uid c now))).drop 50 :=
      (List.take_append_drop 50 _).symm
    have hedrop : e ∈ (sortRecvDesc (db.filter (emailMatches uid c now))).drop 50 := by
      rcases List.mem_append.1 (hsplit ▸ hesort) with h | h
      · rw [hr] at hnot
        exact absurd h hnot
      · exact h
    have hpw := sortRecvDesc_sorted (db.filter (emailMatches uid c now))
    rw [hsplit] at hpw
    rw [hr] at hx
    exact (List.pairwise_append.1 hpw).2.2 x hx e hedrop

theorem c4_safety_ceiling_witness :
    (findEmailsByCriteria "u1" ⟨some "nike", none, none, none, false, none, none⟩
      0 [⟨"e1", "u1", some "g1", "Order receipt", "ads@nike.com", "Nike",
        "thanks", "snip", false, false, 100, none, ["INBOX"]⟩]).length ≤ 50 :=
  (c4_safety_ceiling "u1" ⟨some "nike", none, none, none, false, none, none⟩ 0
    [⟨"e1", "u1", some "g1", "Order receipt", "ads@nike.com", "Nike",
      "thanks", "snip", false, false, 100, none, ["INBOX"]⟩] rfl).1

/-- Claim C5, as stated, is false on the code, and the code contradicts its
own docstring and log lines (`ONLY search sender fields`, `Subject/content
fields ignored for sender-only search`): when the extraction step returns a
subject alongside the sender, the query still filters by subject, so an email
from the requested sender whose subject lacks the spurious keyword is
excluded, while the sender-only criteria would return it. -/
theorem c5_sender_only_still_filters_subject :
    findEmailsByCriteria "u1"
        ⟨some "nike", some "sales", none, none, false, none, none⟩ 0
        [⟨"e1", "u1", some "g1", "Order receipt", "ads@nike.com", "Nike",
          "thanks", "snip", false, false, 100, none, ["INBOX"]⟩] = []
    ∧ findEmailsByCriteria "u1"
        ⟨some "nike", none, none, none, false, none, none⟩ 0
        [⟨"e1", "u1", some "g1", "Order receipt", "ads@nike.com", "Nike",
          "thanks", "snip", false, false, 100, none, ["INBOX"]⟩]
      = [⟨"e1", "u1", some "g1", "Order receipt", "ads@nike.com", "Nike",
          "thanks", "snip", false, false, 100, none, ["INBOX"]⟩] := by
  exact ⟨by decide, by decide⟩

/-- Claim C6, as stated, is false on the code: the creation timestamp stored
with a pending action is never consulted, so a confirmation arriving a
million seconds (far beyond the spec's ten-minute TTL) after proposal still
executes the stale candidate set. -/
theorem c6_expired_action_still_executes :
    (600 : Int) < 1000000 - 0
    ∧ deleteEmailRespond "yes" ⟨[⟨"e1", "Hello", "Nike"⟩], 0⟩ "u1"
        [⟨"e1", "u1", some "g1", "Hello", "ads@nike.com", "Nike", "b", "s",
          false, false, 100, none, ["INBOX"]⟩]
        1000000 (fun _ => GmailOutcome.ok)
      = ⟨[⟨"e1", "u1", some "g1", "Hello", "ads@nike.com", "Nike", "b", "s",
          false, false, 100, some 1000000, ["TRASH"]⟩], 1, 0,
          [StepTag.trashed GmailOutcome.ok], true⟩ := by
  exact ⟨by decide, by decide⟩

/-- Claim C6 amended: there is no TTL at all — the outcome of a respond call
is identical for any two creation timestamps, so a pending action stays
confirmable indefinitely until some response (confirm or cancel) discards
it. -/
theorem c6_timestamp_never_consulted (msg : String) (cands : List Candidate)
    (t1 t2 : Int) (u : String) (db : List EmailRec) (now : Int)
    (oracle : Nat → GmailOutcome) :
    deleteEmailRespond msg ⟨cands, t1⟩ u db now oracle
      = deleteEmailRespond msg ⟨cands, t2⟩ u db now oracle := rfl

/-- Claim C7, as stated, is false on the code, which deliberately counts a
candidate whose provider call failed as a success (`# Still mark as success
since we updated locally`): with one candidate whose trash call returns
falsy, the result reports one success and zero failures. -/
theorem c7_provider_failure_counted_success :
    deleteEmailRespond "yes" ⟨[⟨"e1", "Hello", "Nike"⟩], 0⟩ "u1"
        [⟨"e1", "u1", some "g1", "Hello", "ads@nike.com", "Nike", "b", "s",
          false, false, 100, none, ["INBOX"]⟩]
        500 (fun _ => GmailOutcome.errFalse)
      = ⟨[⟨"e1", "u1", some "g1", "Hello", "ads@nike.com", "Nike", "b", "s",
          false, false, 100, some 500, ["TRASH"]⟩], 1, 0,
          [StepTag.trashed GmailOutcome.errFalse], true⟩ := by
  decide

/-- Claim C7 amended: the executor never aborts — every stored candidate is
processed and receives exactly one tag, the reported `success` and `failed`
counters partition the candidate list, but `success` counts every candidate
whose local mutation was applied (including those whose provider call
returned falsy or raised) and `failed` covers only candidates that did not
resolve, lacked a gmail id, or whose local update failed. -/
theorem c7_partial_failure_accounting (u : String) (now : Int)
    (oracle : Nat → GmailOutcome) (db : List EmailRec)
    (cands : List Candidate) :
    (execTrash u now oracle db cands).tags.length = cands.length
    ∧ (execTrash u now oracle db cands).success
        = (execTrash u now oracle db cands).tags.countP StepTag.isSuccess
    ∧ (execTrash u now oracle db cands).failed
        = (execTrash u now oracle db cands).tags.countP (fun t => !t.isSuccess)
    ∧ (execTrash u now oracle db cands).success
        + (execTrash u now oracle db cands).failed = cands.length := by
  have hc := execFold_countersOk u now oracle cands ⟨db, 0, 0, []⟩ ⟨rfl, rfl⟩
  obtain ⟨s, hs1, hs2⟩ := execFold_tags_append u now oracle cands ⟨db, 0, 0, []⟩
  have hlen : (execTrash u now oracle db cands).tags.length = cands.length := by
    rw [execTrash_def, hs1]
    simp [hs2]
  rw [execTrash_def] at hlen ⊢
  refine ⟨hlen, hc.1, hc.2, ?_⟩
  rw [hc.1, hc.2, countP_add_countP_not, hlen]

/-- Claim C8: for every message, pattern set, deadline extraction and
evaluation time, the urgency score is an integer in `[0, 100]`, and the
verdict is urgent exactly when the score reaches the threshold (default
40). -/
theorem c8_score_bounds_and_threshold (e : EmailRec)
    (pats : List UrgencyPatternRow) (deadlines : List Int) (now : Int) :
    0 ≤ calculateUrgencyScore e pats deadlines now
    ∧ calculateUrgencyScore e pats deadlines now ≤ 100
    ∧ (shouldMarkUrgent e pats deadlines now = true
        ↔ urgencyThreshold ≤ calculateUrgencyScore e pats deadlines now) := by
  refine ⟨?_, ?_, ?_⟩
  · have h1 : 0 ≤ scoreHigh (contentOf e) := by
      unfold scoreHigh; split <;> norm_num
    have h2 : 0 ≤ scoreTime (contentOf e) := by
      unfold scoreTime; split <;> norm_num
    have h3 : 0 ≤ scoreAction (contentOf e) := by
      unfold scoreAction; positivity
    have h4 : 0 ≤ scoreFollowup (contentOf e) := by
      unfold scoreFollowup; split <;> norm_num
    have h5 : 0 ≤ scoreSender e pats := by
      unfold scoreSender; split <;> omega
    have h6 : 0 ≤ scoreCaps e := by
      unfold scoreCaps; split <;> norm_num
    have h7 : 0 ≤ scoreBang e := by
      unfold scoreBang; split <;> norm_num
    have h8 : 0 ≤ scoreTag (lowerL e.subject.toList) := by
      unfold scoreTag; split <;> norm_num
    have h9 : 0 ≤ scoreDeadline deadlines now := by
      unfold scoreDeadline; split <;> norm_num
    have h10 : 0 ≤ scoreReplies (lowerL e.subject.toList) := by
      unfold scoreReplies; split <;> norm_num
    unfold calculateUrgencyScore
    refine le_min ?_ (by norm_num)
    omega
  · unfold calculateUrgencyScore
    exact min_le_right _ _
  · simp [shouldMarkUrgent]

/-- Claim C9, as stated, is right about the intent but the code crashes on
it: for a sender domain with no existing pattern row, `learn_from_correction`
constructs a fresh ORM object whose counters are still `None` (the column
default 0 is applied at INSERT flush, not at construction) and the immediate
`+= 1` raises `TypeError`, so no pattern row with counts 1 and 0 is ever
created.  The key it would have used is the sender's domain. -/
theorem c9_fresh_pattern_correction_raises :
    learnFromCorrection [] "u1" "ads@nike.com" false
      = Except.error
          "TypeError: unsupported operand types for plus-equals: NoneType and int"
    ∧ senderDomain "ads@nike.com" = "nike.com" := ⟨rfl, rfl⟩

/-- Claim C10: executing a confirmation re-fetches each stored candidate id
filtered by the confirming user's id, so (frame) every email belonging to a
different user is returned unchanged whatever ids the stored list contains,
and (accounting) a stored candidate id with no matching email of this user is
tagged `notFound` and counted in the failed total, with no mutation for
it. -/
theorem c10_other_users_unchanged (msg : String) (pending : PendingDelete)
    (u : String) (db : List EmailRec) (now : Int)
    (oracle : Nat → GmailOutcome) :
    (∀ (i : Nat) (e : EmailRec), db[i]? = some e → e.user_id ≠ u →
       (deleteEmailRespond msg pending u db now oracle).db[i]? = some e)
    ∧ (isConfirmedMsg msg = true → pending.emails.isEmpty = false →
       ∀ (k : Nat) (c : Candidate), pending.emails[k]? = some c →
         (∀ e ∈ db, ¬(e.id = c.id ∧ e.user_id = u)) →
         (deleteEmailRespond msg pending u db now oracle).tags[k]?
             = some StepTag.notFound
         ∧ 1 ≤ (deleteEmailRespond msg pending u db now oracle).failed) := by
  constructor
  · intro i e he huser
    by_cases hconf : isConfirmedMsg msg = true
    · by_cases hemp : pending.emails.isEmpty
      · simp [deleteEmailRespond, hconf, hemp, he]
      · have hdb : (deleteEmailRespond msg pending u db now oracle).db
            = (execTrash u now oracle db pending.emails).db := by
          simp [deleteEmailRespond, hconf, hemp]
        rw [hdb, execTrash_def]
        refine execFold_frame u now oracle pending.emails ⟨db, 0, 0, []⟩ i e he ?_
        intro c hc
        have : (e.user_id == u) = false := beq_eq_false_iff_ne.2 huser
        simp [matchesCand, this]
    · have hconf' : isConfirmedMsg msg = false := by
        revert hconf
        cases isConfirmedMsg msg <;> simp
      simp [deleteEmailRespond, hconf', he]
  · intro hconf hemp k c hk hno
    have hres : deleteEmailRespond msg pending u db now oracle
        = ⟨(execTrash u now oracle db pending.emails).db,
           (execTrash u now oracle db pending.emails).success,
           (execTrash u now oracle db pending.emails).failed,
           (execTrash u now oracle db pending.emails).tags, true⟩ := by
      simp [deleteEmailRespond, hconf, hemp]
    have hmatchno : ∀ e ∈ db, matchesCand u c e = false := by
      intro e he
      have := hno e he
      simp only [matchesCand]
      cases hid : e.id == c.id
      · simp
      · cases hus : e.user_id == u
        · simp
        · exfalso
          exact this ⟨beq_iff_eq.1 hid, beq_iff_eq.1 hus⟩
    have htag : (execTrash u now oracle db pending.emails).tags[k]?
        = some StepTag.notFound := by
      rw [execTrash_def]
      have := execFold_tag_notFound u now oracle pending.emails ⟨db, 0, 0, []⟩
        k c hk hmatchno
      simpa using this
    have hcounts := execFold_countersOk u now oracle pending.emails
      ⟨db, 0, 0, []⟩ ⟨rfl, rfl⟩
    refine ⟨by rw [hres]; exact htag, ?_⟩
    rw [hres]
    have hmem : StepTag.notFound ∈ (execTrash u now oracle db pending.emails).tags :=
      mem_of_getElem?_some htag
    have hpos : 0 < (execTrash u now oracle db pending.emails).tags.countP
        (fun t => !t.isSuccess) :=
      List.countP_pos_iff.2 ⟨StepTag.notFound, hmem, by decide⟩
    have hfailed : (execTrash u now oracle db pending.emails).failed
        = (execTrash u now oracle db pending.emails).tags.countP
            (fun t => !t.isSuccess) := by
      rw [execTrash_def]
      exact hcounts.2
    show 1 ≤ (execTrash u now oracle db pending.emails).failed
    omega

theorem c10_other_users_unchanged_witness :
    (deleteEmailRespond "yes" ⟨[⟨"zzz", "x", "y"⟩], 0⟩ "u1"
        [⟨"e2", "u2", some "g2", "Other", "x@y.com", "Y", "b", "s",
          false, false, 100, none, ["INBOX"]⟩]
        500 (fun _ => GmailOutcome.ok)).db[0]?
      = some ⟨"e2", "u2", some "g2", "Other", "x@y.com", "Y", "b", "s",
          false, false, 100, none, ["INBOX"]⟩
    ∧ (deleteEmailRespond "yes" ⟨[⟨"zzz", "x", "y"⟩], 0⟩ "u1"
        [⟨"e2", "u2", some "g2", "Other", "x@y.com", "Y", "b", "s",
          false, false, 100, none, ["INBOX"]⟩]
        500 (fun _ => GmailOutcome.ok)).tags[0]? = some StepTag.notFound :=
  ⟨(c10_other_users_unchanged "yes" ⟨[⟨"zzz", "x", "y"⟩], 0⟩ "u1"
      [⟨"e2", "u2", some "g2", "Other", "x@y.com", "Y", "b", "s",
        false, false, 100, none, ["INBOX"]⟩] 500 (fun _ => GmailOutcome.ok)).1
      0 _ (by decide) (by decide),
   ((c10_other_users_unchanged "yes" ⟨[⟨"zzz", "x", "y"⟩], 0⟩ "u1"
      [⟨"e2", "u2", some "g2", "Other", "x@y.com", "Y", "b", "s",
        false, false, 100, none, ["INBOX"]⟩] 500 (fun _ => GmailOutcome.ok)).2
      (by decide) (by decide) 0 ⟨"zzz", "x", "y"⟩ (by decide) (by decide)).1⟩

end Saigbox
